import Mathlib

/-
Verification of the scheduling and collection-orchestration engine of the
horse-stakes-collector repository. The definitions below are shallow
embeddings of the TypeScript source (DailyOddsCollector in the supervisor
and daily variants, and OddsCollector in src/db/odds-collector.ts).
Machine integers are modelled as Nat or Int; JavaScript Date values are
modelled as milliseconds since the epoch (Int). The deployment container
sets no TZ variable, so the Node process runs with UTC as its local zone;
Date field accessors (getMinutes, setDate, setHours) are therefore
modelled as UTC-field arithmetic.
-/

namespace HorseStakes

/-- Milliseconds in one minute. -/
def minuteMs : Int := 60 * 1000

/-- Milliseconds in one hour. -/
def hourMs : Int := 60 * minuteMs

/-- Milliseconds in one day. -/
def dayMs : Int := 24 * hourMs

/-- JST offset from UTC (9 hours), as used by the JST_OFFSET constant. -/
def JST_OFFSET : Int := 9 * hourMs

/-- The MAX_RETRIES field of DailyOddsCollector. -/
def MAX_RETRIES : Nat := 3

/-- The FINAL_ODDS_WINDOW constant inside the recurring job callback. -/
def FINAL_ODDS_WINDOW : Int := 5 * minuteMs

/-- Cadence decision computed inside the recurring timer callback of
scheduleOddsCollection (identical in the daily variant, ws lines 630-664,
and the supervisor variant, ws lines 2142-2175). The code first assigns
shouldCollect from the grade/time buckets and then overrides it to true
when timeToRace is at most zero. minutes is the minute-of-hour read from
the current Date. -/
def shouldCollect (isGrade : Bool) (timeToRace : Int) (minutes : Nat) : Bool :=
  let base :=
    if isGrade then
      if timeToRace ≤ 30 * minuteMs then true
      else if timeToRace ≤ 3 * hourMs then minutes % 10 == 0
      else if timeToRace ≤ 12 * hourMs then minutes % 30 == 0
      else minutes == 0
    else
      if timeToRace ≤ 30 * minuteMs then minutes % 10 == 0
      else minutes % 30 == 0
  if timeToRace ≤ 0 then true else base

/-- The cadence policy as claim C2 words it: bucketed on time-to-post with
explicit interval bounds, with unconditional collection whenever the
time-to-post is at most zero. Written from the words of the claim, to be
compared with shouldCollect, which is written from the source. -/
def shouldCollectClaim (isGrade : Bool) (timeToRace : Int) (minutes : Nat) : Bool :=
  if timeToRace ≤ 0 then true
  else if isGrade then
    if timeToRace ≤ 30 * minuteMs then true
    else if 30 * minuteMs < timeToRace ∧ timeToRace ≤ 3 * hourMs then minutes % 10 == 0
    else if 3 * hourMs < timeToRace ∧ timeToRace ≤ 12 * hourMs then minutes % 30 == 0
    else minutes == 0
  else
    if timeToRace ≤ 30 * minuteMs then minutes % 10 == 0
    else minutes % 30 == 0

/-- C2: for every timer firing, the should-collect decision of the code
equals the bucketed policy stated in the specification, for grade and
non-grade races alike, including the unconditional override once the race
has started. -/
theorem cadence_policy_matches_spec (g : Bool) (T : Int) (m : Nat) :
    shouldCollect g T m = shouldCollectClaim g T m := by
  unfold shouldCollect shouldCollectClaim
  rcases g <;> split_ifs <;> simp_all

/-! ## Per-bet-type retry loop (collectOdds inner while, ws lines 2542-2594) -/

/-- Outcome of one iteration of the per-bet-type while loop: the scrape
call collectOddsForBetType either throws (with or without the TimeoutError
name) or returns a list; when the list is non-empty the persist step
(handleTanpukuOdds or handleOtherOdds) either succeeds or throws (with or
without the TimeoutError name). -/
inductive AttemptOutcome
  | scrapeTimeout
  | scrapeError
  | emptyResult
  | savedOk
  | saveTimeout
  | saveError
  deriving DecidableEq

/-- How the per-bet-type while loop ends: a non-empty result was persisted,
the persist step raised a TimeoutError so the bet type was skipped, or the
attempt limit was reached. -/
inductive LoopExit
  | saved
  | timeoutSkip
  | gaveUp
  deriving DecidableEq

/-- The per-bet-type retry loop of collectOdds: while retryCount is below
MAX_RETRIES, invoke the scraper once per iteration and dispatch on the
outcome exactly as the nested try/catch of the source does. outs gives the
outcome of the i-th iteration; fuel bounds how many iterations are
modelled. Returns the number of scraper invocations made, and the way the
loop ended (none: still running when fuel is exhausted). Note that an
emptyResult iteration neither breaks nor increments retryCount. -/
def betTypeLoop (outs : Nat → AttemptOutcome) : Nat → Nat → Nat → Nat × Option LoopExit
  | _, _, 0 => (0, none)
  | i, r, fuel + 1 =>
    if r < MAX_RETRIES then
      match outs i with
      | .emptyResult =>
        ((betTypeLoop outs (i + 1) r fuel).1 + 1, (betTypeLoop outs (i + 1) r fuel).2)
      | .savedOk => (1, some .saved)
      | .saveTimeout => (1, some .timeoutSkip)
      | .saveError =>
        if r = MAX_RETRIES - 1 then (1, some .gaveUp)
        else
          ((betTypeLoop outs (i + 1) (r + 1) fuel).1 + 1,
            (betTypeLoop outs (i + 1) (r + 1) fuel).2)
      | .scrapeTimeout =>
        if r + 1 ≥ MAX_RETRIES then (1, some .gaveUp)
        else
          ((betTypeLoop outs (i + 1) (r + 1) fuel).1 + 1,
            (betTypeLoop outs (i + 1) (r + 1) fuel).2)
      | .scrapeError =>
        if r + 1 ≥ MAX_RETRIES then (1, some .gaveUp)
        else
          ((betTypeLoop outs (i + 1) (r + 1) fuel).1 + 1,
            (betTypeLoop outs (i + 1) (r + 1) fuel).2)
    else (0, some .gaveUp)

/-- A decisive outcome stream never yields an empty scrape result; on such
streams every iteration either ends the loop or increments retryCount. -/
def Decisive (outs : Nat → AttemptOutcome) : Prop :=
  ∀ i, outs i ≠ .emptyResult

theorem betTypeLoop_decisive (outs : Nat → AttemptOutcome) (h : Decisive outs) :
    ∀ fuel r i, 3 ≤ r + fuel → r < 3 →
      (betTypeLoop outs i r fuel).2.isSome = true ∧
      1 ≤ (betTypeLoop outs i r fuel).1 ∧ (betTypeLoop outs i r fuel).1 ≤ fuel := by
  intro fuel
  induction fuel with
  | zero =>
    intro r i h3 hr
    omega
  | succ n ih =>
    intro r i h3 hr
    unfold betTypeLoop
    rw [if_pos (show r < MAX_RETRIES by simp only [MAX_RETRIES]; omega)]
    rcases houts : outs i with _ | _ | _ | _ | _ | _
    · by_cases hc : r + 1 ≥ MAX_RETRIES
      · rw [if_pos hc]
        refine ⟨rfl, ?_, ?_⟩ <;> simp
      · rw [if_neg hc]
        simp only [MAX_RETRIES] at hc
        have hrec := ih (r + 1) (i + 1) (by omega) (by omega)
        refine ⟨hrec.1, ?_, ?_⟩ <;> simp <;> omega
    · by_cases hc : r + 1 ≥ MAX_RETRIES
      · rw [if_pos hc]
        refine ⟨rfl, ?_, ?_⟩ <;> simp
      · rw [if_neg hc]
        simp only [MAX_RETRIES] at hc
        have hrec := ih (r + 1) (i + 1) (by omega) (by omega)
        refine ⟨hrec.1, ?_, ?_⟩ <;> simp <;> omega
    · exact absurd houts (h i)
    · refine ⟨rfl, ?_, ?_⟩ <;> simp
    · refine ⟨rfl, ?_, ?_⟩ <;> simp
    · by_cases hc : r = MAX_RETRIES - 1
      · rw [if_pos hc]
        refine ⟨rfl, ?_, ?_⟩ <;> simp
      · rw [if_neg hc]
        simp only [MAX_RETRIES] at hc
        have hrec := ih (r + 1) (i + 1) (by omega) (by omega)
        refine ⟨hrec.1, ?_, ?_⟩ <;> simp <;> omega

/-! ## The collection pass and collectOdds (supervisor variant, ws lines 2397-2602) -/

/-- The seven bet-type markets. -/
inductive BetType
  | tanpuku | wakuren | umaren | wide | umatan | fuku3 | tan3
  deriving DecidableEq

/-- The fixed order in which collectOdds iterates the bet types. -/
def oddsTypes : List BetType :=
  [.tanpuku, .wakuren, .umaren, .wide, .umatan, .fuku3, .tan3]

/-- One pass over a list of bet types: run the per-bet-type retry loop on
each in order, each bet type drawing from its own outcome stream. Returns
the attempted bet types with their scraper invocation counts, and whether
the pass ran to completion; if one retry loop never finishes, the later
bet types are never reached and the surrounding function never returns. -/
def runPass (outs : BetType → Nat → AttemptOutcome) (fuel : Nat) :
    List BetType → List (BetType × Nat) × Bool
  | [] => ([], true)
  | b :: rest =>
    match betTypeLoop (outs b) 0 0 fuel with
    | (c, none) => ([(b, c)], false)
    | (c, some _) =>
      ((b, c) :: (runPass outs fuel rest).1, (runPass outs fuel rest).2)

/-- A persisted race row (the races table). -/
structure StoredRace where
  id : Nat
  name : String
  venue : String
  startTime : Int
  status : String
  deriving DecidableEq

/-- The externally observable effects of one collectOdds call:
which bet types were attempted (with scraper invocation counts), the
status value written to the race at the end of the call (if any), whether
the call ran to completion, and how many times
collectingSemaphore.release was executed on the path taken. -/
structure CollectEffects where
  attempted : List (BetType × Nat)
  statusWrite : Option String
  completed : Bool
  semReleases : Nat
  deriving DecidableEq

/-- Shallow embedding of collectOdds (supervisor variant). The call
acquires the semaphore, looks up the race, and returns immediately when
the race is absent or already done; when the start time is strictly past
and the status is upcoming it runs the terminal pass and writes done;
otherwise it runs the regular pass without a status write. The
semaphore-release count records every execution of
collectingSemaphore.release on the path: the early return and the
terminal return each perform an explicit release and then reach the
finally block, so both release twice; the regular path releases only in
the finally block; a pass that never finishes never releases. -/
def collectOdds (race : Option StoredRace) (nowUTC : Int)
    (outs : BetType → Nat → AttemptOutcome) (fuel : Nat) : CollectEffects :=
  match race with
  | none =>
    { attempted := [], statusWrite := none, completed := true, semReleases := 2 }
  | some r =>
    if r.status = "done" then
      { attempted := [], statusWrite := none, completed := true, semReleases := 2 }
    else if r.startTime < nowUTC ∧ r.status = "upcoming" then
      match runPass outs fuel oddsTypes with
      | (l, true) =>
        { attempted := l, statusWrite := some "done", completed := true, semReleases := 2 }
      | (l, false) =>
        { attempted := l, statusWrite := none, completed := false, semReleases := 0 }
    else
      match runPass outs fuel oddsTypes with
      | (l, true) =>
        { attempted := l, statusWrite := none, completed := true, semReleases := 1 }
      | (l, false) =>
        { attempted := l, statusWrite := none, completed := false, semReleases := 0 }

theorem runPass_decisive (outs : BetType → Nat → AttemptOutcome)
    (h : ∀ b, Decisive (outs b)) :
    ∀ l, (runPass outs 3 l).2 = true ∧ (runPass outs 3 l).1.map Prod.fst = l := by
  intro l
  induction l with
  | nil => exact ⟨rfl, rfl⟩
  | cons b rest ih =>
    have hb := betTypeLoop_decisive (outs b) (h b) 3 0 0 (by omega) (by omega)
    unfold runPass
    rcases hloop : betTypeLoop (outs b) 0 0 3 with ⟨c, e⟩
    rcases e with _ | e
    · rw [hloop] at hb
      simp at hb
    · simp only [List.map_cons]
      exact ⟨ih.2 ▸ ih.1, by rw [ih.2]⟩

/-! ## The collecting semaphore (ws lines 1607-1634) -/

/-- State of collectingSemaphore: its running counter and the length of
its waiter queue. maxConcurrent is 3. -/
structure SemState where
  running : Int
  queued : Nat
  deriving DecidableEq

/-- acquire: grant immediately (incrementing running) when running is
below maxConcurrent, otherwise push the continuation onto the queue. The
returned flag tells whether the caller was granted immediately. -/
def semAcquire (s : SemState) : SemState × Bool :=
  if s.running < 3 then ({ s with running := s.running + 1 }, true)
  else ({ s with queued := s.queued + 1 }, false)

/-- release: decrement running; then, if the queue is non-empty and the
decremented counter is below maxConcurrent, shift one waiter and run it,
which increments running again. -/
def semRelease (s : SemState) : SemState :=
  if s.queued > 0 ∧ s.running - 1 < 3 then
    { running := s.running, queued := s.queued - 1 }
  else
    { running := s.running - 1, queued := s.queued }

/-- n successive acquire calls; the flag is true when every one of them
was granted immediately. -/
def semAcquireMany : SemState → Nat → SemState × Bool
  | s, 0 => (s, true)
  | s, n + 1 =>
    ((semAcquireMany (semAcquire s).1 n).1,
      (semAcquire s).2 && (semAcquireMany (semAcquire s).1 n).2)

/-! ## Claim theorems C1, C4, C5, C6 -/

/-- C1: one collectOdds call no-ops when the race is absent or done (no
bet type attempted, no status write, and — incidentally — a double
semaphore release); when the start time is strictly past and the status
is upcoming it attempts all seven bet types and writes done; otherwise
it attempts all seven bet types and writes no status. Stated for outcome
streams that never return an empty scrape result (the empty-result
non-termination is claim C6) at the loop fuel 3 that such streams need. -/
theorem collectOdds_contract (race : Option StoredRace) (nowUTC : Int)
    (outs : BetType → Nat → AttemptOutcome) (hdec : ∀ b, Decisive (outs b)) :
    ((race = none ∨ ∃ r, race = some r ∧ r.status = "done") →
      collectOdds race nowUTC outs 3 =
        { attempted := [], statusWrite := none, completed := true, semReleases := 2 }) ∧
    (∀ r, race = some r → r.status ≠ "done" → r.startTime < nowUTC → r.status = "upcoming" →
      (collectOdds race nowUTC outs 3).statusWrite = some "done" ∧
      (collectOdds race nowUTC outs 3).attempted.map Prod.fst = oddsTypes ∧
      (collectOdds race nowUTC outs 3).completed = true) ∧
    (∀ r, race = some r → r.status ≠ "done" →
      ¬(r.startTime < nowUTC ∧ r.status = "upcoming") →
      (collectOdds race nowUTC outs 3).statusWrite = none ∧
      (collectOdds race nowUTC outs 3).attempted.map Prod.fst = oddsTypes ∧
      (collectOdds race nowUTC outs 3).completed = true) := by
  have hp := runPass_decisive outs hdec oddsTypes
  refine ⟨?_, ?_, ?_⟩
  · rintro (rfl | ⟨r, rfl, hst⟩)
    · rfl
    · simp only [collectOdds]
      rw [if_pos hst]
  · rintro r rfl hnd hlt hup
    simp only [collectOdds]
    rw [if_neg hnd, if_pos ⟨hlt, hup⟩]
    rcases hpass : runPass outs 3 oddsTypes with ⟨l, fin⟩
    rw [hpass] at hp
    rcases fin
    · simp at hp
    · exact ⟨rfl, hp.2, rfl⟩
  · rintro r rfl hnd hother
    simp only [collectOdds]
    rw [if_neg hnd, if_neg hother]
    rcases hpass : runPass outs 3 oddsTypes with ⟨l, fin⟩
    rw [hpass] at hp
    rcases fin
    · simp at hp
    · exact ⟨rfl, hp.2, rfl⟩

/-- Witness for collectOdds_contract: a race started one millisecond ago
with status upcoming, all scrapes succeeding, ends with a done write over
all seven bet types. -/
theorem collectOdds_contract_witness :
    (collectOdds (some ⟨1, "r", "v", 0, "upcoming"⟩) 1 (fun _ _ => .savedOk) 3).statusWrite
        = some "done" ∧
    (collectOdds (some ⟨1, "r", "v", 0, "upcoming"⟩) 1
        (fun _ _ => .savedOk) 3).attempted.map Prod.fst = oddsTypes := by
  have hd : ∀ b : BetType, Decisive ((fun _ _ => AttemptOutcome.savedOk) b) := by
    intro b i hh
    simp at hh
  have h := (collectOdds_contract (some ⟨1, "r", "v", 0, "upcoming"⟩) 1 (fun _ _ => .savedOk)
    hd).2.1 ⟨1, "r", "v", 0, "upcoming"⟩ rfl (by decide) (by decide) rfl
  exact ⟨h.1, h.2.1⟩

/-- C4 (code bug): the early-return path (race absent or done) and the
terminal path of collectOdds both execute an explicit release and then
the release in the finally block, so the semaphore is released twice, not
once; starting from an idle semaphore one such call drives the running
counter to -1, after which four acquire calls are all granted
immediately — four concurrent collectOdds executions under a cap of 3 —
whereas from a correct idle state the fourth acquire would be queued. -/
theorem collectOdds_semaphore_double_release :
    (collectOdds none 0 (fun _ _ => .savedOk) 3).semReleases = 2 ∧
    (collectOdds (some ⟨1, "r", "v", 0, "done"⟩) 0 (fun _ _ => .savedOk) 3).semReleases = 2 ∧
    (collectOdds (some ⟨1, "r", "v", 0, "upcoming"⟩) 1
      (fun _ _ => .savedOk) 3).semReleases = 2 ∧
    semRelease (semRelease (semAcquire ⟨0, 0⟩).1) = ⟨-1, 0⟩ ∧
    (semAcquireMany ⟨-1, 0⟩ 4).2 = true ∧
    (semAcquireMany ⟨-1, 0⟩ 4).1.running = 3 ∧
    (semAcquireMany ⟨0, 0⟩ 4).2 = false := by
  decide

/-- C5 (code bug): a TimeoutError thrown by the scrape call itself lands
in the outer catch, which retries up to the attempt limit — three scraper
invocations with sleeps — instead of aborting after the first timeout;
only a TimeoutError thrown by the persist step of a non-empty result hits
the inner branch that aborts immediately. The pass itself is not fatal:
with the third bet type timing out on every scrape, all seven bet types
are still attempted. -/
theorem scrape_timeout_is_retried :
    betTypeLoop (fun _ => .scrapeTimeout) 0 0 3 = (3, some .gaveUp) ∧
    betTypeLoop (fun _ => .saveTimeout) 0 0 3 = (1, some .timeoutSkip) ∧
    (runPass (fun b _ => if b = .umaren then .scrapeTimeout else .savedOk) 3
        oddsTypes).1.map Prod.fst = oddsTypes ∧
    (runPass (fun b _ => if b = .umaren then .scrapeTimeout else .savedOk) 3 oddsTypes).1 =
      [(.tanpuku, 1), (.wakuren, 1), (.umaren, 3), (.wide, 1), (.umatan, 1), (.fuku3, 1),
        (.tan3, 1)] := by
  decide

/-- C6 (code bug): when the scraper succeeds with an empty list on every
invocation, the per-bet-type loop neither breaks nor increments
retryCount, so for every modelled iteration bound the loop has invoked
the scraper once per iteration and is still running: the loop does not
terminate and the scraper invocation count is unbounded rather than
capped at 3. -/
theorem empty_result_never_terminates :
    ∀ fuel i, betTypeLoop (fun _ => .emptyResult) i 0 fuel = (fuel, none) := by
  intro fuel
  induction fuel with
  | zero =>
    intro i
    rfl
  | succ n ih =>
    intro i
    unfold betTypeLoop
    rw [if_pos (show 0 < MAX_RETRIES by decide)]
    show ((betTypeLoop (fun _ => .emptyResult) (i + 1) 0 n).1 + 1,
      (betTypeLoop (fun _ => .emptyResult) (i + 1) 0 n).2) = (n + 1, none)
    rw [ih (i + 1)]

/-! ## Collection-start gates and the recurring job callback (C7) -/

/-- Midnight (00:00) of the calendar day containing instant t, for the
zone whose fields are being read; models setHours(h, 0, 0, 0) composed
with the day kept fixed. -/
def dayStart (t : Int) : Int := t / dayMs * dayMs

/-- The grade-race collection-start instant computed by the supervisor
variant of scheduleOddsCollection: shift the UTC start into JST, step one
calendar day back with the time of day preserved, set the time of day to
09:00, and shift the result back to UTC. -/
def collectionStartSup (startUTC : Int) : Int :=
  dayStart (startUTC + JST_OFFSET - dayMs) + 9 * hourMs - JST_OFFSET

/-- The grade-race collection-start instant computed by the daily variant
of scheduleOddsCollection: the stored UTC start is used without a JST
shift, one calendar day is stepped back, the time of day is set to 19:00
in the server-local zone (UTC in the deployment container), and then
JST_OFFSET is subtracted. -/
def collectionStartDaily (startUTC : Int) : Int :=
  dayStart (startUTC - dayMs) + 19 * hourMs - JST_OFFSET

/-- The gate as claim C7 defines it: 09:00 JST on the JST calendar day
before the race start, expressed as a UTC instant. Written from the words
of the claim, to be compared with the two source-derived gates. -/
def collectionStartClaim (startUTC : Int) : Int :=
  dayStart (startUTC + JST_OFFSET) - dayMs + 9 * hourMs - JST_OFFSET

/-- Whether the current instant still precedes the (optional) gate. -/
def beforeGate (gate : Option Int) (nowUTC : Int) : Bool :=
  match gate with
  | some g => nowUTC < g
  | none => false

/-- Minute-of-hour of an instant (getMinutes with the server in UTC). -/
def minuteOfHour (t : Int) : Nat := (t / minuteMs % 60).toNat

/-- Action taken by one firing of the recurring job callback of
scheduleOddsCollection: wait for the gate (grade races only), evaluate
the cadence and collect or skip, or — once past the final-odds window —
cancel the job and finish the race. -/
inductive FiringAction
  | waitGate
  | collect
  | skip
  | cancelFinish
  deriving DecidableEq

/-- One firing of the recurring job callback (both variants share this
structure). -/
def jobFiring (isGrade : Bool) (gate : Option Int) (startTime nowUTC : Int) : FiringAction :=
  if isGrade && beforeGate gate nowUTC then .waitGate
  else if startTime - nowUTC > -FINAL_ODDS_WINDOW then
    if shouldCollect isGrade (startTime - nowUTC) (minuteOfHour nowUTC) then .collect
    else .skip
  else .cancelFinish

/-- The immediate-collection decision made right after a job is
registered: collect now unless the race is grade and the gate has not
been reached yet. -/
def initialCollectRuns (isGrade : Bool) (gate : Option Int) (nowUTC : Int) : Bool :=
  !isGrade ||
    (match gate with
     | some g => decide (nowUTC ≥ g)
     | none => false)

/-- C7 counterexample: for a race starting at 06:00 UTC (15:00 JST) of
epoch day 1, the gate computed by the daily variant is 10 hours later
than 09:00 JST of the previous day, and at the instant of the claimed
09:00 gate the daily job still answers armed-waiting; so the gate is not
09:00 local race-calendar time in that variant. -/
theorem daily_gate_not_nine_am :
    collectionStartDaily (30 * hourMs) ≠ collectionStartClaim (30 * hourMs) ∧
    collectionStartDaily (30 * hourMs) = collectionStartClaim (30 * hourMs) + 10 * hourMs ∧
    jobFiring true (some (collectionStartDaily (30 * hourMs))) (30 * hourMs)
      (collectionStartClaim (30 * hourMs)) = .waitGate := by
  decide

/-- C7 amended: the supervisor variant computes the gate as 09:00 JST on
the day before the start, in one consistent zone, exactly as the claim
defines it; the daily variant instead yields a gate 10 hours later (19:00
on the previous day of the raw UTC timestamp, shifted by the JST offset)
whenever the start instant lies before 15:00 UTC of its day; in both
variants a grade-race firing strictly before the respective gate performs
no collection and the immediate collection on registration is skipped. -/
theorem collection_start_gates (s now : Int) :
    collectionStartSup s = collectionStartClaim s ∧
    (s - dayStart s < 15 * hourMs →
      collectionStartDaily s = collectionStartClaim s + 10 * hourMs) ∧
    (now < collectionStartSup s →
      jobFiring true (some (collectionStartSup s)) s now = .waitGate ∧
      initialCollectRuns true (some (collectionStartSup s)) now = false) ∧
    (now < collectionStartDaily s →
      jobFiring true (some (collectionStartDaily s)) s now = .waitGate ∧
      initialCollectRuns true (some (collectionStartDaily s)) now = false) := by
  refine ⟨?_, ?_, ?_, ?_⟩
  · simp only [collectionStartSup, collectionStartClaim, dayStart, dayMs, hourMs, minuteMs,
      JST_OFFSET]
    norm_num
    omega
  · simp only [collectionStartDaily, collectionStartClaim, dayStart, dayMs, hourMs, minuteMs,
      JST_OFFSET]
    norm_num
    omega
  · intro hlt
    constructor
    · simp [jobFiring, beforeGate, hlt]
    · simp [initialCollectRuns]
      omega
  · intro hlt
    constructor
    · simp [jobFiring, beforeGate, hlt]
    · simp [initialCollectRuns]
      omega

/-- Witness for collection_start_gates at a race starting 06:00 UTC of
epoch day 1, observed before both gates. -/
theorem collection_start_gates_witness :
    collectionStartSup (30 * hourMs) = collectionStartClaim (30 * hourMs) ∧
    collectionStartDaily (30 * hourMs) = collectionStartClaim (30 * hourMs) + 10 * hourMs ∧
    jobFiring true (some (collectionStartSup (30 * hourMs))) (30 * hourMs) (-1) = .waitGate ∧
    initialCollectRuns true (some (collectionStartDaily (30 * hourMs))) (-1) = false := by
  have h := collection_start_gates (30 * hourMs) (-1)
  exact ⟨h.1, h.2.1 (by decide), (h.2.2.1 (by decide)).1, (h.2.2.2 (by decide)).2⟩

/-! ## Job restoration (checkAndRestoreRaceJobs, C8) -/

/-- In-memory RaceInfo consumed by the scheduler. -/
structure RaceInfoM where
  id : Nat
  name : String
  venue : String
  startTime : Int
  isGrade : Bool
  deriving DecidableEq

/-- Does the second list occur at the head of the first? -/
def startsWithList : List Char → List Char → Bool
  | [], _ => true
  | _ :: _, [] => false
  | p :: ps, c :: cs => p == c && startsWithList ps cs

/-- Does pat occur as a contiguous sublist? -/
def containsList (pat : List Char) : List Char → Bool
  | [] => startsWithList pat []
  | c :: cs => startsWithList pat (c :: cs) || containsList pat cs

/-- Substring test, modelling String.prototype.includes. -/
def strContains (s pat : String) : Bool := containsList pat.toList s.toList

/-- The upcoming races that have no active job, in store order: the set
both restoration loops iterate over. -/
def racesToRestore (jobs : List Nat) (store : List StoredRace) : List StoredRace :=
  store.filter (fun r => r.status == "upcoming" && !(jobs.contains r.id))

/-- RaceInfo rebuilt by the daily variant of checkAndRestoreRaceJobs:
isGrade is the constant true. -/
def restoredInfoDaily (r : StoredRace) : RaceInfoM :=
  ⟨r.id, r.name, r.venue, r.startTime, true⟩

/-- RaceInfo rebuilt by the supervisor variant of checkAndRestoreRaceJobs:
isGrade is re-derived from the race name containing G1, G2 or G3. -/
def restoredInfoSup (r : StoredRace) : RaceInfoM :=
  ⟨r.id, r.name, r.venue, r.startTime,
    strContains r.name "G1" || strContains r.name "G2" || strContains r.name "G3"⟩

/-- The race infos scheduled by the daily variant restoration sweep. -/
def checkAndRestoreDaily (jobs : List Nat) (store : List StoredRace) : List RaceInfoM :=
  (racesToRestore jobs store).map restoredInfoDaily

/-- The race infos scheduled by the supervisor variant restoration sweep. -/
def checkAndRestoreSup (jobs : List Nat) (store : List StoredRace) : List RaceInfoM :=
  (racesToRestore jobs store).map restoredInfoSup

/-- C8 counterexample: the supervisor variant of checkAndRestoreRaceJobs
re-derives the grade flag from the race name, so a stored upcoming race
whose name carries no G1/G2/G3 marker is restored with isGrade false, not
with the conservative default true that the claim asserts. -/
theorem restore_rederives_grade :
    (checkAndRestoreSup [] [⟨1, "TestCup", "Tokyo", 0, "upcoming"⟩]).map
      RaceInfoM.isGrade = [false] := by
  decide

/-- C8 amended: both restoration sweeps recreate a job for exactly the
upcoming races that lack one; the daily variant always restores with
isGrade true, while the supervisor variant re-derives isGrade from the
race name containing G1, G2 or G3. -/
theorem restore_missing_jobs (jobs : List Nat) (store : List StoredRace) :
    (checkAndRestoreDaily jobs store).map RaceInfoM.id =
      (racesToRestore jobs store).map StoredRace.id ∧
    (checkAndRestoreSup jobs store).map RaceInfoM.id =
      (racesToRestore jobs store).map StoredRace.id ∧
    (checkAndRestoreDaily jobs store).all RaceInfoM.isGrade = true ∧
    (checkAndRestoreSup jobs store).map RaceInfoM.isGrade =
      (racesToRestore jobs store).map
        (fun r => strContains r.name "G1" || strContains r.name "G2" ||
          strContains r.name "G3") := by
  refine ⟨?_, ?_, ?_, ?_⟩ <;>
    simp [checkAndRestoreDaily, checkAndRestoreSup, restoredInfoDaily, restoredInfoSup,
      List.map_map, Function.comp]

/-! ## Race status and scheduler jobs as a transition system (C9) -/

/-- Lookup of a race status in the races table: the first entry with the
given id. -/
def lookupStatus : List (Nat × String) → Nat → Option String
  | [], _ => none
  | p :: rest, id => if p.1 = id then some p.2 else lookupStatus rest id

/-- The status update executed by db.update(races).set(status).where(id):
every row with the id gets the new status. -/
def setStatus : List (Nat × String) → Nat → String → List (Nat × String)
  | [], _, _ => []
  | p :: rest, id, st =>
    (if p.1 = id then (p.1, st) else p) :: setStatus rest id st

/-- Joint state of the races table (id and status) and the in-memory
activeJobs map (ids with an active timer). -/
structure SchedState where
  statuses : List (Nat × String)
  jobs : List Nat
  deriving DecidableEq

/-- Status of a race in a scheduler state. -/
def getStatus (s : SchedState) (id : Nat) : Option String :=
  lookupStatus s.statuses id

/-- States reachable from the empty system, one constructor per operation
that touches the races table or the job map. registerRace inserts a
missing race as upcoming; scheduleOddsCollection cancels any previous
timer of the race and installs a fresh one; the firing past the
final-odds window cancels the timer and marks a still-upcoming race done;
the terminal branch of collectOdds marks a started upcoming race done
without touching the job map; getTodayGradeRaces marks a race shown as
already started done, also without touching the job map. -/
inductive Reach : SchedState → Prop
  | init : Reach ⟨[], []⟩
  | register (s : SchedState) (id : Nat) (h : Reach s)
      (hnew : getStatus s id = none) :
      Reach ⟨(id, "upcoming") :: s.statuses, s.jobs⟩
  | schedule (s : SchedState) (id : Nat) (h : Reach s)
      (hup : getStatus s id = some "upcoming") :
      Reach ⟨s.statuses, id :: s.jobs.erase id⟩
  | firingCancel (s : SchedState) (id : Nat) (h : Reach s) (hjob : id ∈ s.jobs) :
      Reach ⟨if getStatus s id = some "upcoming" then setStatus s.statuses id "done"
        else s.statuses, s.jobs.erase id⟩
  | terminalCollect (s : SchedState) (id : Nat) (h : Reach s)
      (hup : getStatus s id = some "upcoming") :
      Reach ⟨setStatus s.statuses id "done", s.jobs⟩
  | discoveryMarkDone (s : SchedState) (id : Nat) (h : Reach s) :
      Reach ⟨setStatus s.statuses id "done", s.jobs⟩

/-- The restriction of Reach to the operations that mark races done only
through the self-cancel branch of the recurring job. -/
inductive ReachSelfCancel : SchedState → Prop
  | init : ReachSelfCancel ⟨[], []⟩
  | register (s : SchedState) (id : Nat) (h : ReachSelfCancel s)
      (hnew : getStatus s id = none) :
      ReachSelfCancel ⟨(id, "upcoming") :: s.statuses, s.jobs⟩
  | schedule (s : SchedState) (id : Nat) (h : ReachSelfCancel s)
      (hup : getStatus s id = some "upcoming") :
      ReachSelfCancel ⟨s.statuses, id :: s.jobs.erase id⟩
  | firingCancel (s : SchedState) (id : Nat) (h : ReachSelfCancel s) (hjob : id ∈ s.jobs) :
      ReachSelfCancel ⟨if getStatus s id = some "upcoming" then setStatus s.statuses id "done"
        else s.statuses, s.jobs.erase id⟩

theorem lookupStatus_set_ne (l : List (Nat × String)) (id id2 : Nat) (st : String)
    (hne : id2 ≠ id) : lookupStatus (setStatus l id st) id2 = lookupStatus l id2 := by
  induction l with
  | nil => rfl
  | cons p rest ih =>
    simp only [setStatus, lookupStatus]
    by_cases hp : p.1 = id
    · simp [hp, Ne.symm hne, ih]
    · by_cases hq : p.1 = id2 <;> simp [hp, hq, hne, ih]

theorem lookupStatus_cons_ne (p : Nat × String) (rest : List (Nat × String)) (id : Nat)
    (hne : p.1 ≠ id) : lookupStatus (p :: rest) id = lookupStatus rest id := by
  simp [lookupStatus, hne]

/-- C9 counterexample: register a race, give it a timer, and let the
terminal branch of collectOdds mark it done; the resulting state is
reachable, the race is done, and its timer is still in the job map. -/
theorem done_race_keeps_timer :
    Reach ⟨[(1, "done")], [1]⟩ ∧
    getStatus ⟨[(1, "done")], [1]⟩ 1 = some "done" ∧
    1 ∈ SchedState.jobs ⟨[(1, "done")], [1]⟩ := by
  refine ⟨?_, by decide, by decide⟩
  have h1 := Reach.register ⟨[], []⟩ 1 Reach.init (by decide)
  have h2 := Reach.schedule ⟨[(1, "upcoming")], []⟩ 1 h1 (by decide)
  have h3 := Reach.terminalCollect ⟨[(1, "upcoming")], [1]⟩ 1 h2 (by decide)
  exact h3

/-- C9 amended: the done-implies-no-timer invariant holds of every state
reachable while races are marked done only through the self-cancel branch
of the recurring job; the terminal branch of collectOdds and the
discovery path break it by writing done without cancelling the timer. -/
theorem self_cancel_keeps_invariant (s : SchedState) (h : ReachSelfCancel s) :
    ∀ id, getStatus s id = some "done" → id ∉ s.jobs := by
  have main : (∀ id, getStatus s id = some "done" → id ∉ s.jobs) ∧ s.jobs.Nodup := by
    induction h with
    | init => exact ⟨by intro id hid; simp [getStatus, lookupStatus] at hid, List.nodup_nil⟩
    | register s id h hnew ih =>
      refine ⟨?_, ih.2⟩
      intro id2 hid2
      by_cases he : id = id2
      · subst he
        simp [getStatus, lookupStatus, List.find?] at hid2
      · rw [show getStatus ⟨(id, "upcoming") :: s.statuses, s.jobs⟩ id2
            = lookupStatus ((id, "upcoming") :: s.statuses) id2 from rfl,
          lookupStatus_cons_ne _ _ _ he] at hid2
        exact ih.1 id2 hid2
    | schedule s id h hup ih =>
      constructor
      · intro id2 hid2
        have hid2s : getStatus s id2 = some "done" := hid2
        intro hmem
        rcases List.mem_cons.mp hmem with rfl | hmem2
        · rw [hup] at hid2s
          simp at hid2s
        · exact ih.1 id2 hid2s (List.mem_of_mem_erase hmem2)
      · exact List.Nodup.cons (fun hc => (List.Nodup.not_mem_erase ih.2) hc)
          (List.Nodup.erase id ih.2)
    | firingCancel s id h hjob ih =>
      by_cases hup : getStatus s id = some "upcoming"
      · rw [if_pos hup]
        constructor
        · intro id2 hid2
          by_cases he : id2 = id
          · subst he
            exact fun hc => (List.Nodup.not_mem_erase ih.2) hc
          · rw [show getStatus ⟨setStatus s.statuses id "done", s.jobs.erase id⟩ id2
                = lookupStatus (setStatus s.statuses id "done") id2 from rfl,
              lookupStatus_set_ne _ _ _ _ he] at hid2
            exact fun hc => ih.1 id2 hid2 (List.mem_of_mem_erase hc)
        · exact List.Nodup.erase id ih.2
      · rw [if_neg hup]
        constructor
        · intro id2 hid2
          exact fun hc => ih.1 id2 hid2 (List.mem_of_mem_erase hc)
        · exact List.Nodup.erase id ih.2
  exact main.1

/-- Witness for self_cancel_keeps_invariant: after register, schedule and
the self-cancel firing, race 1 is done and its timer is gone. -/
theorem self_cancel_invariant_witness :
    (1 : Nat) ∉ SchedState.jobs ⟨[(1, "done")], ([] : List Nat)⟩ := by
  have h1 := ReachSelfCancel.register ⟨[], []⟩ 1 ReachSelfCancel.init (by decide)
  have h2 := ReachSelfCancel.schedule ⟨[(1, "upcoming")], []⟩ 1 h1 (by decide)
  have h3 := ReachSelfCancel.firingCancel ⟨[(1, "upcoming")], [1]⟩ 1 h2 (by decide)
  have h4 : ReachSelfCancel ⟨[(1, "done")], ([] : List Nat)⟩ := by
    simpa [getStatus, lookupStatus, setStatus] using h3
  exact self_cancel_keeps_invariant _ h4 1 (by decide)

/-! ## Combination-odds upserts (odds-collector.ts, C3) -/

/-- Lookup in a JS Map built by inserting the listed entries in order:
the last entry with the key wins. -/
def mapLookup {κ α : Type} [DecidableEq κ] (entries : List (κ × α)) (k : κ) : Option α :=
  (entries.reverse.find? (fun e => decide (e.1 = k))).map Prod.snd

/-- A scraped umaren (unordered horse pair) quote, in scrape order. -/
structure UmarenData where
  horse1 : Nat
  horse2 : Nat
  odds : Int
  timestamp : Int
  raceId : Nat
  deriving DecidableEq

/-- A stored umaren_odds row. -/
structure UmarenRow where
  rowId : Nat
  horse1 : Nat
  horse2 : Nat
  odds : Int
  timestamp : Int
  raceId : Nat
  deriving DecidableEq

/-- The umaren_odds table with its serial id sequence. -/
structure UmarenStore where
  rows : List UmarenRow
  nextId : Nat
  deriving DecidableEq

/-- The update entries collected by updateUmarenOdds: quotes whose raw
(horse1, horse2) key is present in the existing-row map, with the row id
to rewrite and the new odds and timestamp. -/
def umarenUpdates (emap : List ((Nat × Nat) × UmarenRow)) (batch : List UmarenData) :
    List (Nat × Int × Int) :=
  batch.foldr (fun d acc =>
    match mapLookup emap (d.horse1, d.horse2) with
    | some row => (row.rowId, d.odds, d.timestamp) :: acc
    | none => acc) []

/-- The insert entries collected by updateUmarenOdds: quotes whose raw
key is absent from the existing-row map. -/
def umarenInserts (emap : List ((Nat × Nat) × UmarenRow)) (batch : List UmarenData) :
    List UmarenData :=
  batch.filter (fun d => (mapLookup emap (d.horse1, d.horse2)).isNone)

/-- One db.update on umaren_odds: set odds and timestamp of the row with
the given id. -/
def applyUmarenUpdate (rows : List UmarenRow) (u : Nat × Int × Int) : List UmarenRow :=
  rows.map (fun r => if r.rowId = u.1 then { r with odds := u.2.1, timestamp := u.2.2 } else r)

/-- updateUmarenOdds: fetch the existing rows of the race of the first
quote, key them by their (horse1, horse2) pair in stored order — no
sorting — then update the keyed matches and insert the rest. Batch
chunking only groups the same writes, so they are applied sequentially.
The source reads oddsDataArray[0] and every call site guards a non-empty
list; an empty batch leaves the store unchanged here. -/
def updateUmarenOdds (store : UmarenStore) (batch : List UmarenData) : UmarenStore :=
  match batch with
  | [] => store
  | d0 :: _ =>
    let emap := (store.rows.filter (fun r => r.raceId == d0.raceId)).map
      (fun r => ((r.horse1, r.horse2), r))
    let rows2 := (umarenUpdates emap batch).foldl applyUmarenUpdate store.rows
    let ins := umarenInserts emap batch
    ⟨rows2 ++ ins.enum.map (fun e =>
        ⟨store.nextId + e.1, e.2.horse1, e.2.horse2, e.2.odds, e.2.timestamp, e.2.raceId⟩),
      store.nextId + ins.length⟩

/-- Rows of the umaren table holding the unordered pair a-b for a race. -/
def umarenPairCount (store : UmarenStore) (rid a b : Nat) : Nat :=
  (store.rows.filter (fun r => r.raceId == rid &&
    ((r.horse1 == a && r.horse2 == b) || (r.horse1 == b && r.horse2 == a)))).length

/-- Ascending sort of the three-element array [horse1, horse2, horse3],
as the numeric comparator sort in updateFuku3Odds produces. -/
def sort3 (a b c : Nat) : Nat × Nat × Nat :=
  if a ≤ b then
    if b ≤ c then (a, b, c)
    else if a ≤ c then (a, c, b)
    else (c, a, b)
  else
    if a ≤ c then (b, a, c)
    else if b ≤ c then (b, c, a)
    else (c, b, a)

/-- A scraped fuku3 (unordered horse triple) quote, in scrape order. -/
structure Fuku3Data where
  horse1 : Nat
  horse2 : Nat
  horse3 : Nat
  odds : Int
  timestamp : Int
  raceId : Nat
  deriving DecidableEq

/-- A stored fuku3_odds row. -/
structure Fuku3Row where
  rowId : Nat
  horse1 : Nat
  horse2 : Nat
  horse3 : Nat
  odds : Int
  timestamp : Int
  raceId : Nat
  deriving DecidableEq

/-- The fuku3_odds table with its serial id sequence. -/
structure Fuku3Store where
  rows : List Fuku3Row
  nextId : Nat
  deriving DecidableEq

/-- The update entries collected by updateFuku3Odds, keyed by the sorted
triple. -/
def fuku3Updates (emap : List ((Nat × Nat × Nat) × Fuku3Row)) (batch : List Fuku3Data) :
    List (Nat × Int × Int) :=
  batch.foldr (fun d acc =>
    match mapLookup emap (sort3 d.horse1 d.horse2 d.horse3) with
    | some row => (row.rowId, d.odds, d.timestamp) :: acc
    | none => acc) []

/-- The insert entries collected by updateFuku3Odds. -/
def fuku3Inserts (emap : List ((Nat × Nat × Nat) × Fuku3Row)) (batch : List Fuku3Data) :
    List Fuku3Data :=
  batch.filter (fun d => (mapLookup emap (sort3 d.horse1 d.horse2 d.horse3)).isNone)

/-- One db.update on fuku3_odds: set odds and timestamp of the row with
the given id. -/
def applyFuku3Update (rows : List Fuku3Row) (u : Nat × Int × Int) : List Fuku3Row :=
  rows.map (fun r => if r.rowId = u.1 then { r with odds := u.2.1, timestamp := u.2.2 } else r)

/-- updateFuku3Odds: like updateUmarenOdds but both the existing rows and
the incoming quotes are keyed by their ascending-sorted triple, and an
inserted row stores the sorted triple. -/
def updateFuku3Odds (store : Fuku3Store) (batch : List Fuku3Data) : Fuku3Store :=
  match batch with
  | [] => store
  | d0 :: _ =>
    let emap := (store.rows.filter (fun r => r.raceId == d0.raceId)).map
      (fun r => (sort3 r.horse1 r.horse2 r.horse3, r))
    let rows2 := (fuku3Updates emap batch).foldl applyFuku3Update store.rows
    let ins := fuku3Inserts emap batch
    ⟨rows2 ++ ins.enum.map (fun e =>
        ⟨store.nextId + e.1, (sort3 e.2.horse1 e.2.horse2 e.2.horse3).1,
          (sort3 e.2.horse1 e.2.horse2 e.2.horse3).2.1,
          (sort3 e.2.horse1 e.2.horse2 e.2.horse3).2.2,
          e.2.odds, e.2.timestamp, e.2.raceId⟩),
      store.nextId + ins.length⟩

/-- Rows of the fuku3 table holding the unordered triple a-b-c for a
race. -/
def fuku3TripleCount (store : Fuku3Store) (rid a b c : Nat) : Nat :=
  (store.rows.filter (fun r => r.raceId == rid &&
    decide (sort3 r.horse1 r.horse2 r.horse3 = sort3 a b c))).length

theorem sort3_of_sorted (a b c : Nat) (hab : a ≤ b) (hbc : b ≤ c) :
    sort3 a b c = (a, b, c) := by
  unfold sort3
  split_ifs <;> simp_all <;> omega

theorem sort3_sorted (a b c : Nat) :
    (sort3 a b c).1 ≤ (sort3 a b c).2.1 ∧ (sort3 a b c).2.1 ≤ (sort3 a b c).2.2 := by
  unfold sort3
  split_ifs <;> simp_all <;> omega

theorem sort3_idem (a b c : Nat) :
    sort3 (sort3 a b c).1 (sort3 a b c).2.1 (sort3 a b c).2.2 = sort3 a b c := by
  have h := sort3_sorted a b c
  rw [sort3_of_sorted _ _ _ h.1 h.2]

/-- C3 counterexample: updateUmarenOdds keys on the raw (horse1, horse2)
order, so upserting the unordered pair 1-2 as (1, 2) and then as (2, 1)
leaves two rows for the one combination, not one. -/
theorem umaren_pair_not_normalized :
    umarenPairCount
      (updateUmarenOdds (updateUmarenOdds ⟨[], 0⟩ [⟨1, 2, 50, 0, 100⟩]) [⟨2, 1, 60, 1, 100⟩])
      100 1 2 = 2 := by
  decide

/-- C3 amended: only the unordered-triple table (fuku3) normalizes the
participant tuple before keying; the pair tables key on the raw scrape
order (umaren modelled here; wakuren and wide are structurally
identical), so the two input orders of one pair produce two rows, while
any two orderings of one triple collapse to a single fuku3 row. -/
theorem combination_upsert_normalization (a b c d e f rid : Nat) (o1 o2 t1 t2 : Int)
    (hne : a ≠ b) (hperm : sort3 a b c = sort3 d e f) :
    umarenPairCount
      (updateUmarenOdds (updateUmarenOdds ⟨[], 0⟩ [⟨a, b, o1, t1, rid⟩])
        [⟨b, a, o2, t2, rid⟩]) rid a b = 2 ∧
    fuku3TripleCount
      (updateFuku3Odds (updateFuku3Odds ⟨[], 0⟩ [⟨a, b, c, o1, t1, rid⟩])
        [⟨d, e, f, o2, t2, rid⟩]) rid a b c = 1 := by
  constructor
  · simp [updateUmarenOdds, umarenUpdates, umarenInserts, applyUmarenUpdate, mapLookup,
      umarenPairCount, List.filter, hne, Ne.symm hne]
  · simp [updateFuku3Odds, fuku3Updates, fuku3Inserts, applyFuku3Update, mapLookup,
      fuku3TripleCount, List.filter, sort3_idem, hperm]

/-- Witness for combination_upsert_normalization with the pair (1, 2) and
the triple 1-2-3 rescanned as (3, 1, 2). -/
theorem combination_upsert_normalization_witness :
    umarenPairCount
      (updateUmarenOdds (updateUmarenOdds ⟨[], 0⟩ [⟨1, 2, 50, 0, 100⟩])
        [⟨2, 1, 60, 1, 100⟩]) 100 1 2 = 2 ∧
    fuku3TripleCount
      (updateFuku3Odds (updateFuku3Odds ⟨[], 0⟩ [⟨1, 2, 3, 50, 0, 100⟩])
        [⟨3, 1, 2, 60, 1, 100⟩]) 100 1 2 3 = 1 :=
  combination_upsert_normalization 1 2 3 3 1 2 100 50 60 0 1 (by decide) (by decide)

/-! ## Tanpuku parsing and horse status handling (C10) -/

/-- One table row of the tanpuku odds page, after the cell-level parsing
that parseTanpukuOdds performs: the parsed horse number of td.num (none
when the cell is missing or not a number), the frame parsed from a
td.waku cell when one is present on this row (0 when its image src does
not match), the horse name, whether a td.odds_tan_cancel cell marks the
horse as cancelled, and the parsed odds values. -/
structure RawRow where
  horseNum : Option Nat
  wakuFrame : Option Nat
  horseName : String
  isCanceled : Bool
  tanOddsVal : Int
  fukuMinVal : Int
  fukuMaxVal : Int

/-- An element of the list parseTanpukuOdds returns. The TypeScript
object literal has exactly the fields horseId, horseName, frame, number,
tanOdds, fukuOddsMin, fukuOddsMax, timestamp, raceId and status; it has
no field named odds, so the JavaScript property read odd.odds that
handleTanpukuOdds performs yields undefined. oddsField models that
dynamic read: none stands for the absent property. -/
structure OddsEntry where
  horseId : Nat
  horseName : String
  frame : Nat
  number : Nat
  tanOdds : Int
  fukuOddsMin : Int
  fukuOddsMax : Int
  raceId : Nat
  status : String
  oddsField : Option String
  deriving DecidableEq

/-- The currentFrame value after the waku-cell handling of one row: a
present td.waku cell overwrites it (possibly with 0 on a failed image
match), otherwise the previous value is kept. -/
def frameAfter (row : RawRow) (current : Nat) : Nat :=
  match row.wakuFrame with
  | some f => f
  | none => current

/-- One step of the row loop in parseTanpukuOdds, carrying currentFrame,
the processed horse ids and the accumulated output. A cancelled horse is
emitted with tanOdds -1, zero fuku odds and status scratched; the object
never carries an odds property. -/
def parseRow (raceId : Nat) (st : Nat × List Nat × List OddsEntry) (row : RawRow) :
    Nat × List Nat × List OddsEntry :=
  match row.horseNum with
  | none => st
  | some hid =>
    if st.2.1.contains hid then st
    else if frameAfter row st.1 = 0 then (frameAfter row st.1, st.2.1, st.2.2)
    else
      (frameAfter row st.1, hid :: st.2.1, st.2.2 ++
        [⟨hid, row.horseName, frameAfter row st.1, hid,
          if row.isCanceled then -1 else row.tanOddsVal,
          if row.isCanceled then 0 else row.fukuMinVal,
          if row.isCanceled then 0 else row.fukuMaxVal,
          raceId,
          if row.isCanceled then "scratched" else "running",
          none⟩])

/-- parseTanpukuOdds over the rows of the odds table. -/
def parseTanpukuOdds (raceId : Nat) (rows : List RawRow) : List OddsEntry :=
  (rows.foldl (parseRow raceId) (0, [], [])).2.2

/-- A row of the horses table. -/
structure Horse where
  name : String
  raceId : Nat
  frame : Nat
  number : Nat
  status : String
  deriving DecidableEq

/-- Processing of one odds element by handleTanpukuOdds: look up the
horse by name and race; when absent, insert it with status scratched
exactly when the odds property holds the cancellation marker; when
present and the odds property holds the marker and the stored status is
not yet scratched, update the status to scratched. -/
def handleOne (raceId : Nat) (store : List Horse) (o : OddsEntry) : List Horse :=
  match store.find? (fun h => h.name == o.horseName && h.raceId == raceId) with
  | none =>
    store ++ [⟨o.horseName, raceId, o.frame, o.number,
      if o.oddsField == some "取消" then "scratched" else "running"⟩]
  | some h =>
    if o.oddsField == some "取消" && h.status != "scratched" then
      store.map (fun h2 =>
        if h2.name == o.horseName && h2.raceId == raceId then
          { h2 with status := "scratched" }
        else h2)
    else store

/-- handleTanpukuOdds iterates the odds list over the horses table. -/
def handleTanpukuOdds (raceId : Nat) (odds : List OddsEntry) (store : List Horse) :
    List Horse :=
  odds.foldl (handleOne raceId) store

theorem parseRow_oddsField_none (raceId : Nat) (rows : List RawRow) :
    ∀ st : Nat × List Nat × List OddsEntry,
      (∀ o ∈ st.2.2, o.oddsField = none) →
      ∀ o ∈ (rows.foldl (parseRow raceId) st).2.2, o.oddsField = none := by
  induction rows with
  | nil => exact fun st h => h
  | cons row rest ih =>
    intro st hst
    refine ih (parseRow raceId st row) ?_
    intro o ho
    unfold parseRow at ho
    rcases hnum : row.horseNum with _ | hid <;> simp only [hnum] at ho
    · exact hst o ho
    · by_cases hc : st.2.1.contains hid = true
      · simp only [if_pos hc] at ho
        exact hst o ho
      · simp only [if_neg hc] at ho
        by_cases hz : frameAfter row st.1 = 0
        · simp only [if_pos hz] at ho
          exact hst o ho
        · simp only [if_neg hz] at ho
          simp only [List.mem_append, List.mem_singleton] at ho
          rcases ho with ho | rfl
          · exact hst o ho
          · rfl

theorem handleTanpukuOdds_appends_running (raceId : Nat) (odds : List OddsEntry)
    (hodds : ∀ o ∈ odds, o.oddsField = none) :
    ∀ store : List Horse, ∃ l, handleTanpukuOdds raceId odds store = store ++ l ∧
      ∀ h ∈ l, h.status = "running" := by
  induction odds with
  | nil => exact fun store => ⟨[], by simp [handleTanpukuOdds], by simp⟩
  | cons o rest ih =>
    intro store
    have ho : o.oddsField = none := hodds o (List.mem_cons_self o rest)
    have hrest : ∀ o2 ∈ rest, o2.oddsField = none :=
      fun o2 h2 => hodds o2 (List.mem_cons_of_mem o h2)
    show ∃ l, handleTanpukuOdds raceId rest (handleOne raceId store o) = store ++ l ∧
      ∀ h ∈ l, h.status = "running"
    rcases hf : store.find? (fun h => h.name == o.horseName && h.raceId == raceId) with _ | hh
    · have hone : handleOne raceId store o =
          store ++ [⟨o.horseName, raceId, o.frame, o.number, "running"⟩] := by
        simp [handleOne, hf, ho]
      obtain ⟨l, hl, hall⟩ :=
        ih hrest (store ++ [⟨o.horseName, raceId, o.frame, o.number, "running"⟩])
      refine ⟨⟨o.horseName, raceId, o.frame, o.number, "running"⟩ :: l, ?_, ?_⟩
      · rw [hone, hl, List.append_assoc]
        rfl
      · intro h hmem
        rcases List.mem_cons.mp hmem with rfl | hmem2
        · rfl
        · exact hall h hmem2
    · have hone : handleOne raceId store o = store := by
        simp [handleOne, hf, ho]
      rw [hone]
      exact ih hrest store

/-- C10: every element the tanpuku parser emits carries no odds string
property (the parser reports a scratched horse only through tanOdds -1
and its status field), so in handleTanpukuOdds the cancellation tests
odd.odds never fire: the horses table only grows by rows whose status is
running — a previously unknown horse is inserted as running even when
the parser marked it scratched — and no stored status is ever changed to
scratched. -/
theorem tanpuku_scratched_branches_unreachable (raceId : Nat) (rows : List RawRow)
    (store : List Horse) :
    (parseTanpukuOdds raceId rows).all (fun o => o.oddsField == none) = true ∧
    ∃ l, handleTanpukuOdds raceId (parseTanpukuOdds raceId rows) store = store ++ l ∧
      ∀ h ∈ l, h.status = "running" := by
  have hnone : ∀ o ∈ parseTanpukuOdds raceId rows, o.oddsField = none :=
    parseRow_oddsField_none raceId rows (0, [], []) (by simp)
  constructor
  · rw [List.all_eq_true]
    intro o ho
    simp [hnone o ho]
  · exact handleTanpukuOdds_appends_running raceId (parseTanpukuOdds raceId rows) hnone store

end HorseStakes
